import Mathlib

/-- The structural kind of a Go type, mirroring `reflect.Kind`
(the `UnsafePointer` kind is never relevant to this package and is omitted). -/
inductive Kind where
  | invalid
  | bool
  | int
  | int8
  | int16
  | int32
  | int64
  | uint
  | uint8
  | uint16
  | uint32
  | uint64
  | uintptr
  | float32
  | float64
  | complex64
  | complex128
  | array
  | chan
  | func
  | interface
  | map
  | ptr
  | slice
  | string
  | struct
deriving DecidableEq, Repr

mutual
/-- A Go type descriptor, as far as `jsonschema.go` inspects one:
its `reflect.Kind`, its `String()` name (for the named-type table),
element/key types of slices, maps and pointers, and struct fields.
`prim` covers every kind with no type structure the walker looks into. -/
inductive GoType where
  | prim (kind : Kind) (name : String)
  | slice (elem : GoType)
  | mapT (key : GoType) (elem : GoType)
  | structT (name : String) (fields : FieldList)
  | ptr (elem : GoType)
  | ifaceT
deriving DecidableEq, Repr

/-- The ordered declared fields of a struct type: per field its Go name,
its raw `json` tag text, its `Anonymous` flag and its declared type. -/
inductive FieldList where
  | nil
  | cons (name : String) (tag : String) (anonymous : Bool) (type : GoType) (rest : FieldList)
deriving DecidableEq, Repr
end

/-- `reflect.Type.Kind()`. -/
def GoType.kind : GoType → Kind
  | .prim k _ => k
  | .slice _ => .slice
  | .mapT _ _ => .map
  | .structT _ _ => .struct
  | .ptr _ => .ptr
  | .ifaceT => .interface

/-- `reflect.Type.String()`, for the shapes representable here. -/
def GoType.typeString : GoType → String
  | .prim _ n => n
  | .slice e => "[]" ++ e.typeString
  | .mapT k v => "map[" ++ k.typeString ++ "]" ++ v.typeString
  | .structT n _ => n
  | .ptr e => "*" ++ e.typeString
  | .ifaceT => "interface {}"

/-- `var formatMapping = map[string][]string{"time.Time": {"string", "date-time"}}`. -/
def formatMapping (s : String) : Option (String × String) :=
  if s = "time.Time" then some ("string", "date-time") else none

/-- `var kindMapping = map[reflect.Kind]string{...}`. -/
def kindMapping : Kind → Option String
  | .bool => some "boolean"
  | .int => some "integer"
  | .int8 => some "integer"
  | .int16 => some "integer"
  | .int32 => some "integer"
  | .int64 => some "integer"
  | .uint => some "integer"
  | .uint8 => some "integer"
  | .uint16 => some "integer"
  | .uint32 => some "integer"
  | .uint64 => some "integer"
  | .float32 => some "number"
  | .float64 => some "number"
  | .string => some "string"
  | .slice => some "array"
  | .struct => some "object"
  | .map => some "object"
  | _ => none

/-- `func getTypeFromMapping(t reflect.Type) (string, string, reflect.Kind)`. -/
def getTypeFromMapping (t : GoType) : String × String × Kind :=
  match formatMapping t.typeString with
  | some v => (v.1, v.2, Kind.string)
  | none =>
    match kindMapping t.kind with
    | some v => (v, "", t.kind)
    | none => ("", "", t.kind)

/-- The option-list part of a struct tag (`type tagOptions string`). -/
abbrev tagOptions := String

/-- Splits a character list at its first comma: the part before and after,
or `none` when no comma occurs (models `strings.Index(tag, ",")`). -/
def splitFirstComma : List Char → Option (List Char × List Char)
  | [] => none
  | c :: rest =>
    if c = ',' then some ([], rest)
    else
      match splitFirstComma rest with
      | none => none
      | some (a, b) => some (c :: a, b)

/-- `func parseTag(tag string) (string, tagOptions)`: text before the first
comma, and everything after it. -/
def parseTag (tag : String) : String × tagOptions :=
  match splitFirstComma tag.data with
  | none => (tag, ("" : String))
  | some (a, b) => (String.mk a, String.mk b)

/-- The body of the `for s != ""` loop of `tagOptions.Contains`, as a
recursion over the remaining characters with the current token accumulated:
at a comma the current token is compared and, when the remainder is empty,
the loop stops (so a trailing empty token is never compared); at the end of
the string the final token is compared. -/
def containsFrom (optionName : List Char) (cur : List Char) : List Char → Bool
  | [] => cur == optionName
  | c :: rest =>
    if c = ',' then
      (cur == optionName) || (if rest = [] then false else containsFrom optionName [] rest)
    else
      containsFrom optionName (cur ++ [c]) rest

/-- `func (o tagOptions) Contains(optionName string) bool`. -/
def tagOptions.Contains (o : tagOptions) (optionName : String) : Bool :=
  if (o : String) = "" then false
  else containsFrom optionName.data [] (String.data o)

mutual
/-- `type property struct`: the recursive schema node. `items` and
`properties` distinguish Go's nil from populated values. -/
inductive Property where
  | mk (type : String) (format : String) (items : Items)
       (properties : PropsOpt) (required : List String)
       (additionalProperties : Bool)
deriving DecidableEq, Repr

/-- `Items *property`: nil or one child node. -/
inductive Items where
  | none
  | some (p : Property)
deriving DecidableEq, Repr

/-- `Properties map[string]*property`: nil, or a (possibly empty) map. -/
inductive PropsOpt where
  | none
  | some (ps : PropList)
deriving DecidableEq, Repr

/-- The entries of a `map[string]*property`, as an association list. -/
inductive PropList where
  | nil
  | cons (name : String) (p : Property) (rest : PropList)
deriving DecidableEq, Repr
end


def Property.type : Property → String
  | .mk t _ _ _ _ _ => t

def Property.format : Property → String
  | .mk _ f _ _ _ _ => f

def Property.items : Property → Items
  | .mk _ _ i _ _ _ => i

def Property.properties : Property → PropsOpt
  | .mk _ _ _ pr _ _ => pr

def Property.required : Property → List String
  | .mk _ _ _ _ r _ => r

def Property.additionalProperties : Property → Bool
  | .mk _ _ _ _ _ a => a

def Property.withType : Property → String → Property
  | .mk _ f i pr r a, t => .mk t f i pr r a

def Property.withFormat : Property → String → Property
  | .mk t _ i pr r a, f => .mk t f i pr r a

def Property.withItems : Property → Items → Property
  | .mk t f _ pr r a, i => .mk t f i pr r a

def Property.withProperties : Property → PropsOpt → Property
  | .mk t f i _ r a, pr => .mk t f i pr r a

def Property.withRequired : Property → List String → Property
  | .mk t f i pr _ a, r => .mk t f i pr r a

def Property.withAdditionalProperties : Property → Bool → Property
  | .mk t f i pr r _, a => .mk t f i pr r a

/-- The zero value `property{}`. -/
def Property.empty : Property :=
  .mk "" "" .none .none [] false

/-- The entries of `p.Properties` (a nil map reads as empty, as in Go). -/
def Property.propertiesList (p : Property) : PropList :=
  match p.properties with
  | .none => .nil
  | .some ps => ps

/-- `m[k] = v` on a Go map: replace the binding when `k` is present,
otherwise add it. -/
def insertProp : PropList → String → Property → PropList
  | .nil, k, v => .cons k v .nil
  | .cons k' v' rest, k, v =>
    if k' = k then .cons k v rest else .cons k' v' (insertProp rest k v)

/-- `for name, property := range src { dst[name] = property }`. -/
def mergeProps (dst : PropList) : PropList → PropList
  | .nil => dst
  | .cons k v rest => mergeProps (insertProp dst k v) rest

def PropList.toList : PropList → List (String × Property)
  | .nil => []
  | .cons n p rest => (n, p) :: rest.toList

def PropList.keys : PropList → List String
  | .nil => []
  | .cons n _ rest => n :: rest.keys

def PropList.length : PropList → Nat
  | .nil => 0
  | .cons _ _ rest => rest.length + 1

/-- The two conditional assignments at the top of `property.read` and
`property.readDeep`: take over a non-empty type and format from
`getTypeFromMapping`. -/
def Property.applyMapping (p : Property) (m : String × String × Kind) : Property :=
  let p1 := if m.1 ≠ "" then p.withType m.1 else p
  if m.2.1 ≠ "" then p1.withFormat m.2.1 else p1

mutual
/-- `func (p *property) read(t reflect.Type, opts tagOptions)`.
The bodies of `readFromSlice`, `readFromMap` and `readFromStruct` are
inlined into the dispatch (Lean's structural recursion needs every
mutual call to shrink the type); the standalone definitions below restate
them and are proved to agree with these branches. -/
def Property.read (p : Property) (t : GoType) (opts : tagOptions) : Property :=
  let p2 := p.applyMapping (getTypeFromMapping t)
  match (getTypeFromMapping t).2.2, t with
  | .slice, .slice elemT =>
    let me := getTypeFromMapping elemT
    if me.2.2 = .uint8 then p2.withType "string"
    else if me.1 ≠ "" then p2.withItems (.some (Property.empty.read elemT ("" : String)))
    else p2
  | .map, .mapT _ valT =>
    let mv := getTypeFromMapping valT
    if mv.1 ≠ "" then
      p2.withProperties (.some (.cons ".*" (Property.mk mv.1 mv.2.1 .none .none [] false) .nil))
    else p2.withAdditionalProperties true
  | .struct, .structT _ fields =>
    (((p2.withType "object").withProperties (.some .nil)).withAdditionalProperties
      false).readFields fields
  | .ptr, .ptr elemT => p2.read elemT opts
  | _, _ => p2

/-- The field loop of `readFromStruct`, one iteration per declared field. -/
def Property.readFields (p : Property) : FieldList → Property
  | .nil => p
  | .cons fname ftag fanon fty rest =>
    let pt := parseTag ftag
    let name := if pt.1 = "" then fname else pt.1
    if name = "-" then p.readFields rest
    else if fanon then
      let e := Property.empty.read fty pt.2
      let p1 := p.withProperties (.some (mergeProps p.propertiesList e.propertiesList))
      let p2 := p1.withRequired (p1.required ++ e.required)
      p2.readFields rest
    else
      let child := Property.empty.read fty pt.2
      let p1 := p.withProperties (.some (insertProp p.propertiesList name child))
      let p2 := if tagOptions.Contains pt.2 "omitempty" then p1
                else p1.withRequired (p1.required ++ [name])
      p2.readFields rest
end

/-- `func (p *property) readFromSlice(t reflect.Type)`. -/
def Property.readFromSlice (p : Property) (t : GoType) : Property :=
  match t with
  | .slice elemT =>
    let me := getTypeFromMapping elemT
    if me.2.2 = .uint8 then p.withType "string"
    else if me.1 ≠ "" then p.withItems (.some (Property.empty.read elemT ("" : String)))
    else p
  | _ => p

/-- `func (p *property) readFromMap(t reflect.Type)`. -/
def Property.readFromMap (p : Property) (t : GoType) : Property :=
  match t with
  | .mapT _ valT =>
    let mv := getTypeFromMapping valT
    if mv.1 ≠ "" then
      p.withProperties (.some (.cons ".*" (Property.mk mv.1 mv.2.1 .none .none [] false) .nil))
    else p.withAdditionalProperties true
  | _ => p

/-- `func (p *property) readFromStruct(t reflect.Type)`. -/
def Property.readFromStruct (p : Property) (t : GoType) : Property :=
  match t with
  | .structT _ fields =>
    (((p.withType "object").withProperties (.some .nil)).withAdditionalProperties
      false).readFields fields
  | _ => p

mutual
/-- A runtime `reflect.Value`, as far as `jsonschema.go` inspects one.
`invalid` is the zero `reflect.Value`; `primV` is a value of any type whose
content the walker never looks at; strings, slices, maps, structs, pointers
and interfaces carry the content the deep walk uses. -/
inductive GoValue where
  | invalid
  | stringV (s : String)
  | primV (t : GoType)
  | sliceV (elemT : GoType) (elems : GoValueList)
  | mapV (keyT : GoType) (valT : GoType) (entries : GoEntryList)
  | structV (t : GoType) (fieldVals : GoValueList)
  | ptrV (elemT : GoType) (pointee : GoValueOpt)
  | ifaceV (inner : GoValueOpt)
deriving DecidableEq, Repr

/-- A nil or non-nil pointer/interface payload. -/
inductive GoValueOpt where
  | none
  | some (v : GoValue)
deriving DecidableEq, Repr

/-- The elements of a slice value (also used for struct field values). -/
inductive GoValueList where
  | nil
  | cons (v : GoValue) (rest : GoValueList)
deriving DecidableEq, Repr

/-- The key/value entries of a map value, in iteration order. -/
inductive GoEntryList where
  | nil
  | cons (key : GoValue) (val : GoValue) (rest : GoEntryList)
deriving DecidableEq, Repr
end

/-- `reflect.Value.Type()` of a (valid) value; the `invalid` case is never
consulted by the walk, which tests validity first. -/
def GoValue.typeOf : GoValue → GoType
  | .invalid => .prim .invalid ""
  | .stringV _ => .prim .string "string"
  | .primV t => t
  | .sliceV elemT _ => .slice elemT
  | .mapV keyT valT _ => .mapT keyT valT
  | .structV t _ => t
  | .ptrV elemT _ => .ptr elemT
  | .ifaceV _ => .ifaceT

/-- `reflect.Value.String()`: the content for a value of kind `String`,
otherwise the placeholder `"<T Value>"` built from the value's type
(`"<invalid Value>"` for the zero value). -/
def GoValue.stringRepr : GoValue → String
  | .stringV s => s
  | .invalid => "<invalid Value>"
  | v => "<" ++ v.typeOf.typeString ++ " Value>"

/-- `func mapKeyToString(key reflect.Value) string`: unwrap interface keys,
then `key.String()`. A nil interface key unwraps to the invalid value,
whose `String()` is `"<invalid Value>"`. -/
def mapKeyToString : GoValue → String
  | .ifaceV (.some x) => mapKeyToString x
  | .ifaceV .none => GoValue.invalid.stringRepr
  | k => k.stringRepr

mutual
/-- `func (p *property) readDeep(v reflect.Value, opts tagOptions)`.
As with `Property.read`, the bodies of `readFromSliceDeep`,
`readFromMapDeep` and `readFromStructDeep` are inlined into the dispatch;
`v.Elem()` on a nil pointer or nil interface yields the invalid value, on
which the recursive call immediately sets `type = "null"`, written here
directly. -/
def Property.readDeep (p : Property) (v : GoValue) (opts : tagOptions) : Property :=
  match v with
  | .invalid => p.withType "null"
  | .stringV s => p.applyMapping (getTypeFromMapping (GoValue.stringV s).typeOf)
  | .primV t => p.applyMapping (getTypeFromMapping (GoValue.primV t).typeOf)
  | .sliceV elemT elems =>
    let p2 := p.applyMapping (getTypeFromMapping (GoValue.sliceV elemT elems).typeOf)
    -- switch dispatch: for a slice value the computed kind is `slice`
    -- (or, hypothetically, a format-table kind, which has no case)
    if (getTypeFromMapping (GoValue.sliceV elemT elems).typeOf).2.2 = Kind.slice then
      match elems with
      | .nil =>
        -- v.Len() == 0: fall back to the declared element type; the
        -- source's inner `v.Len() == 0` re-check is vacuously true here.
        let me := getTypeFromMapping elemT
        if me.2.2 = .uint8 then p2.withType "string"
        else if me.1 ≠ "" then p2.withItems (.some (Property.empty.read elemT ("" : String)))
        else p2
      | .cons e _ =>
        let me := getTypeFromMapping e.typeOf
        if me.2.2 = .uint8 then p2.withType "string"
        else p2.withItems (.some (Property.empty.readDeep e ("" : String)))
    else p2
  | .mapV keyT valT entries =>
    let p2 := p.applyMapping (getTypeFromMapping (GoValue.mapV keyT valT entries).typeOf)
    if (getTypeFromMapping (GoValue.mapV keyT valT entries).typeOf).2.2 = Kind.map then
      let properties := deepEntries entries .nil
      if properties.length > 0 then p2.withProperties (.some properties) else p2
    else p2
  | .structV st vals =>
    let p2 := p.applyMapping (getTypeFromMapping (GoValue.structV st vals).typeOf)
    -- a struct value dispatches to readFromStructDeep unless its type name
    -- is in the format table (time.Time), whose kind `string` has no case
    if (getTypeFromMapping (GoValue.structV st vals).typeOf).2.2 = Kind.struct then
      match st with
      | GoType.structT _ fields =>
        (((p2.withType "object").withProperties (.some .nil)).withAdditionalProperties
          false).readDeepFields fields vals
      | _ => p2
    else p2
  | .ptrV elemT pointee =>
    let p2 := p.applyMapping (getTypeFromMapping (GoValue.ptrV elemT pointee).typeOf)
    if (getTypeFromMapping (GoValue.ptrV elemT pointee).typeOf).2.2 = Kind.ptr then
      -- p.readDeep(v.Elem(), opts): a nil pointer's Elem() is the invalid
      -- value, on which readDeep immediately writes type = "null"
      match pointee with
      | .some x => p2.readDeep x opts
      | .none => p2.withType "null"
    else p2
  | .ifaceV inner =>
    let p2 := p.applyMapping (getTypeFromMapping (GoValue.ifaceV inner).typeOf)
    if (getTypeFromMapping (GoValue.ifaceV inner).typeOf).2.2 = Kind.interface then
      match inner with
      | .some x => p2.readDeep x opts
      | .none => p2.withType "null"
    else p2

/-- The entry loop of `readFromMapDeep`: one map insertion per entry,
keyed by `mapKeyToString`. -/
def deepEntries : GoEntryList → PropList → PropList
  | .nil, acc => acc
  | .cons k val rest, acc =>
    deepEntries rest (insertProp acc (mapKeyToString k) (Property.empty.readDeep val ("" : String)))

/-- The field loop of `readFromStructDeep`: declared fields paired with the
corresponding field values. -/
def Property.readDeepFields (p : Property) : FieldList → GoValueList → Property
  | .nil, _ => p
  | .cons _ _ _ _ _, .nil => p
  | .cons fname ftag fanon _fty frest, .cons val vrest =>
    let pt := parseTag ftag
    let name := if pt.1 = "" then fname else pt.1
    if name = "-" then p.readDeepFields frest vrest
    else if fanon then
      let e := Property.empty.readDeep val pt.2
      let p1 := p.withProperties (.some (mergeProps p.propertiesList e.propertiesList))
      let p2 := p1.withRequired (p1.required ++ e.required)
      p2.readDeepFields frest vrest
    else
      let child := Property.empty.readDeep val pt.2
      let p1 := p.withProperties (.some (insertProp p.propertiesList name child))
      let p2 := if tagOptions.Contains pt.2 "omitempty" then p1
                else p1.withRequired (p1.required ++ [name])
      p2.readDeepFields frest vrest
end

/-- `func (p *property) readFromSliceDeep(v reflect.Value)`. -/
def Property.readFromSliceDeep (p : Property) (v : GoValue) : Property :=
  match v with
  | .sliceV elemT .nil =>
    let me := getTypeFromMapping elemT
    if me.2.2 = .uint8 then p.withType "string"
    else if me.1 ≠ "" then p.withItems (.some (Property.empty.read elemT ("" : String)))
    else p
  | .sliceV _ (.cons e _) =>
    let me := getTypeFromMapping e.typeOf
    if me.2.2 = .uint8 then p.withType "string"
    else p.withItems (.some (Property.empty.readDeep e ("" : String)))
  | _ => p

/-- `func (p *property) readFromMapDeep(v reflect.Value)`. -/
def Property.readFromMapDeep (p : Property) (v : GoValue) : Property :=
  match v with
  | .mapV _ _ entries =>
    let properties := deepEntries entries .nil
    if properties.length > 0 then p.withProperties (.some properties) else p
  | _ => p

/-- `func (p *property) readFromStructDeep(v reflect.Value)`. -/
def Property.readFromStructDeep (p : Property) (v : GoValue) : Property :=
  match v with
  | .structV (GoType.structT _ fields) vals =>
    (((p.withType "object").withProperties (.some .nil)).withAdditionalProperties
      false).readDeepFields fields vals
  | _ => p

/-- `var defaultSchema = "http://json-schema.org/schema#"`. -/
def defaultSchema : String := "http://json-schema.org/schema#"

/-- `type Document struct { Schema string; property }`. -/
structure Document where
  Schema : String
  prop : Property
deriving DecidableEq, Repr

/-- `func NewDocument(schema string) *Document`. -/
def NewDocument (schema : String) : Document :=
  { Schema := schema, prop := Property.empty }

/-- `func (d *Document) setDefaultSchema()`. -/
def Document.setDefaultSchema (d : Document) : Document :=
  if d.Schema = "" then { d with Schema := defaultSchema } else d

/-- The effect of `Document.Read` once the input's type descriptor is in
hand: set the default dialect, then read the type into the root node. -/
def Document.readType (d : Document) (t : GoType) : Document :=
  { d.setDefaultSchema with prop := d.setDefaultSchema.prop.read t ("" : String) }

/-- `func (d *Document) Read(variable interface{})`. A `nil` argument is
modelled as `none`: `reflect.ValueOf(nil)` is the zero `Value`, and
`value.Type()` on it panics, modelled as result `none`. -/
def Document.Read (d : Document) (x : Option GoValue) : Option Document :=
  match x with
  | none => none
  | some v => some (d.readType v.typeOf)

/-- `func (d *Document) ReadDeep(variable interface{})`. A `nil` argument
is the invalid `reflect.Value`, which `readDeep` handles (`type = "null"`). -/
def Document.ReadDeep (d : Document) (x : Option GoValue) : Document :=
  let v := match x with
           | none => GoValue.invalid
           | some v => v
  { d.setDefaultSchema with prop := d.setDefaultSchema.prop.readDeep v ("" : String) }

/-- Ordering of rendered map entries by key: lexicographic on the key's
character sequence, as `sort.Strings` orders the keys in `encoding/json`
(for sequences of Unicode scalar values, lexicographic code-point order
coincides with lexicographic UTF-8 byte order). -/
def pairLe (a b : String × String) : Prop := a.1.data ≤ b.1.data

instance : DecidableRel pairLe := fun a b => inferInstanceAs (Decidable (a.1.data ≤ b.1.data))

instance : IsTotal (String × String) pairLe := ⟨fun a b => le_total a.1.data b.1.data⟩

instance : IsTrans (String × String) pairLe := ⟨fun _ _ _ h1 h2 => le_trans h1 h2⟩

/-- `encoding/json` emits map entries sorted by key. -/
def sortPairs (l : List (String × String)) : List (String × String) :=
  l.insertionSort pairLe

def jstr (s : String) : String := "\"" ++ s ++ "\""

def joinComma : List String → String
  | [] => ""
  | [s] => s
  | s :: rest => s ++ ", " ++ joinComma rest

/-- Render already-rendered map entries in sorted key order. -/
def renderSortedPairs (l : List (String × String)) : String :=
  joinComma ((sortPairs l).map (fun kv => jstr kv.1 ++ ": " ++ kv.2))

mutual
/-- The JSON fields of one schema node, in struct declaration order,
with `omitempty` semantics (empty string, nil pointer, nil or empty map,
empty slice and `false` are omitted). -/
def renderPropertyFields : Property → List String
  | .mk ty fm it pr rq ap =>
    (if ty = "" then [] else [jstr "type" ++ ": " ++ jstr ty]) ++
    (if fm = "" then [] else [jstr "format" ++ ": " ++ jstr fm]) ++
    renderItemsField it ++
    renderPropertiesField pr ++
    (if rq = [] then []
     else [jstr "required" ++ ": [" ++ joinComma (rq.map jstr) ++ "]"]) ++
    (if ap then [jstr "additionalProperties" ++ ": true"] else [])

def renderItemsField : Items → List String
  | .none => []
  | .some q => [jstr "items" ++ ": \x7b" ++ joinComma (renderPropertyFields q) ++ "\x7d"]

def renderPropertiesField : PropsOpt → List String
  | .none => []
  | .some ps =>
    match renderPropList ps with
    | [] => []
    | l => [jstr "properties" ++ ": \x7b" ++ renderSortedPairs l ++ "\x7d"]

/-- Render each map entry's value, keeping the key alongside. -/
def renderPropList : PropList → List (String × String)
  | .nil => []
  | .cons n p rest =>
    (n, "\x7b" ++ joinComma (renderPropertyFields p) ++ "\x7d") :: renderPropList rest
end

/-- One schema node as JSON object text. -/
def renderProperty (p : Property) : String :=
  "\x7b" ++ joinComma (renderPropertyFields p) ++ "\x7d"

/-- `func (d *Document) Marshal() ([]byte, error)`: `json.MarshalIndent`
of the document; the embedded `property`'s fields are flattened beside
`$schema`. Encoding this tree never faults, so the error side is always
absent. -/
def Document.Marshal (d : Document) : Option String :=
  some ("\x7b" ++
    joinComma
      ((if d.Schema = "" then [] else [jstr "$schema" ++ ": " ++ jstr d.Schema]) ++
        renderPropertyFields d.prop) ++ "\x7d")

/-- `func (d *Document) String() string`: Marshal, discarding the error. -/
def Document.String (d : Document) : String :=
  match d.Marshal with
  | some s => s
  | none => ""

/-- The entries held by a `Properties` field (nil map reads as empty). -/
def PropsOpt.listOf : PropsOpt → PropList
  | .none => .nil
  | .some ps => ps

/-- The resolved serialization name of a field: the tag override when
present, the field's own name otherwise. -/
def fieldName (fname ftag : String) : String :=
  if (parseTag ftag).1 = "" then fname else (parseTag ftag).1

/-- The `Properties` value after the `readFromStruct` field loop runs over
`fs`, starting from `pr`: the loop's effect on that one field, with the
state threading unfolded. -/
def propsAfter (pr : PropsOpt) : FieldList → PropsOpt
  | .nil => pr
  | .cons fname ftag fanon fty rest =>
    if fieldName fname ftag = "-" then propsAfter pr rest
    else if fanon then
      propsAfter
        (.some (mergeProps pr.listOf (Property.empty.read fty (parseTag ftag).2).propertiesList))
        rest
    else
      propsAfter
        (.some (insertProp pr.listOf (fieldName fname ftag)
          (Property.empty.read fty (parseTag ftag).2)))
        rest

/-- The names the `readFromStruct` field loop appends to `Required`:
per included field, the embedded node's required names for an anonymous
field, else the resolved name unless the tag carries `omitempty`. -/
def reqDelta : FieldList → List String
  | .nil => []
  | .cons fname ftag fanon fty rest =>
    if fieldName fname ftag = "-" then reqDelta rest
    else if fanon then (Property.empty.read fty (parseTag ftag).2).required ++ reqDelta rest
    else if tagOptions.Contains (parseTag ftag).2 "omitempty" then reqDelta rest
    else fieldName fname ftag :: reqDelta rest

/-- Concatenation of field lists. -/
def FieldList.append : FieldList → FieldList → FieldList
  | .nil, l => l
  | .cons n t a ty rest, l => .cons n t a ty (rest.append l)

/-- Concatenation of property lists. -/
def PropList.append : PropList → PropList → PropList
  | .nil, l => l
  | .cons n p rest, l => .cons n p (rest.append l)

/-- No field of the list is anonymous/embedded. -/
def FieldList.noAnonymous : FieldList → Bool
  | .nil => true
  | .cons _ _ fanon _ rest => !fanon && rest.noAnonymous

/-- The properties the field loop builds for a list of ordinary
(non-anonymous) fields: one entry per field not excluded by a `"-"` name,
keyed by the resolved name, holding the recursively inferred node for the
field's declared type under the field's tag options. -/
def propsDelta : FieldList → PropList
  | .nil => .nil
  | .cons fname ftag _ fty rest =>
    if fieldName fname ftag = "-" then propsDelta rest
    else .cons (fieldName fname ftag) (Property.empty.read fty (parseTag ftag).2) (propsDelta rest)


def GoValueList.append : GoValueList → GoValueList → GoValueList
  | .nil, l => l
  | .cons v rest, l => .cons v (rest.append l)

def FieldList.length : FieldList → Nat
  | .nil => 0
  | .cons _ _ _ _ rest => rest.length + 1

def GoValueList.length : GoValueList → Nat
  | .nil => 0
  | .cons _ rest => rest.length + 1

/-- The `Properties` value after the `readFromStructDeep` field loop. -/
def propsAfterDeep (pr : PropsOpt) : FieldList → GoValueList → PropsOpt
  | .nil, _ => pr
  | .cons _ _ _ _ _, .nil => pr
  | .cons fname ftag fanon _ rest, .cons val vrest =>
    if fieldName fname ftag = "-" then propsAfterDeep pr rest vrest
    else if fanon then
      propsAfterDeep
        (.some (mergeProps pr.listOf
          (Property.empty.readDeep val (parseTag ftag).2).propertiesList))
        rest vrest
    else
      propsAfterDeep
        (.some (insertProp pr.listOf (fieldName fname ftag)
          (Property.empty.readDeep val (parseTag ftag).2)))
        rest vrest

/-- The names the `readFromStructDeep` field loop appends to `Required`. -/
def reqDeltaDeep : FieldList → GoValueList → List String
  | .nil, _ => []
  | .cons _ _ _ _ _, .nil => []
  | .cons fname ftag fanon _ rest, .cons val vrest =>
    if fieldName fname ftag = "-" then reqDeltaDeep rest vrest
    else if fanon then
      (Property.empty.readDeep val (parseTag ftag).2).required ++ reqDeltaDeep rest vrest
    else if tagOptions.Contains (parseTag ftag).2 "omitempty" then reqDeltaDeep rest vrest
    else fieldName fname ftag :: reqDeltaDeep rest vrest

/-- `bool`. -/
def goBool : GoType := .prim .bool "bool"

/-- `string`. -/
def goString : GoType := .prim .string "string"

/-- `int`. -/
def goInt : GoType := .prim .int "int"

/-- `byte` (= `uint8`). -/
def goByte : GoType := .prim .uint8 "uint8"

/-- `float64`. -/
def goFloat64 : GoType := .prim .float64 "float64"

/-- The Go record with fields A (bool, untagged) and B (string, tagged omitempty). -/
def fieldsAB : FieldList :=
  .cons "A" "" false goBool (.cons "B" ",omitempty" false goString .nil)

/-- The struct type carrying `fieldsAB`. -/
def structAB : GoType := .structT "main.T" fieldsAB

/-- `struct { A bool }`. -/
def structA : GoType := .structT "main.A" (.cons "A" "" false goBool .nil)

/-- `struct { Zoo string }`, used embedded. -/
def structZoo : GoType := .structT "main.E" (.cons "Zoo" "" false goString .nil)

/-- A map key that is neither a string, nor an interface, nor invalid:
`Value.String()` on it yields the type-derived `"<T Value>"` placeholder. -/
def isPlainKey : GoValue → Bool
  | .invalid => false
  | .stringV _ => false
  | .ifaceV _ => false
  | _ => true

/-- Every key of the entry list is a plain (non-string, non-interface)
value of type `t`. -/
def GoEntryList.allKeysOfType (t : GoType) : GoEntryList → Bool
  | .nil => true
  | .cons k _ rest => (isPlainKey k && (k.typeOf == t)) && rest.allKeysOfType t

/-- Every key of the entry list stringifies to the name `n`. -/
def GoEntryList.allKeysNamed (n : String) : GoEntryList → Bool
  | .nil => true
  | .cons k _ rest => (mapKeyToString k == n) && rest.allKeysNamed n

/-! ## Theorems -/

theorem append_ne_timeTime (a s : String) (ha : a.data ≠ [])
    (hc : a.data.headI ≠ 't') : a ++ s ≠ "time.Time" := by
  intro h
  have hd : a.data ++ s.data = "time.Time".data := by
    rw [← String.data_append, h]
  cases h1 : a.data with
  | nil => exact ha h1
  | cons c cs =>
    rw [h1] at hd
    rw [show "time.Time".data = ['t', 'i', 'm', 'e', '.', 'T', 'i', 'm', 'e'] from rfl] at hd
    have : c = 't' := (List.cons.injEq _ _ _ _ ▸ hd).1
    exact hc (by simp [h1, List.headI, this])

theorem formatMapping_slice (e : GoType) :
    formatMapping (GoType.typeString (.slice e)) = none := by
  simp only [GoType.typeString, formatMapping, ite_eq_right_iff]
  intro h
  exact absurd h (append_ne_timeTime "[]" _ (by decide) (by decide))

theorem formatMapping_mapT (k v : GoType) :
    formatMapping (GoType.typeString (.mapT k v)) = none := by
  simp only [GoType.typeString, formatMapping, ite_eq_right_iff]
  intro h
  exact absurd h (append_ne_timeTime ("map[" ++ k.typeString ++ "]") _
    (by simp [String.data_append]) (by simp [String.data_append, List.headI]))

theorem formatMapping_ptr (e : GoType) :
    formatMapping (GoType.typeString (.ptr e)) = none := by
  simp only [GoType.typeString, formatMapping, ite_eq_right_iff]
  intro h
  exact absurd h (append_ne_timeTime "*" _ (by decide) (by decide))

theorem read_slice_eq (p : Property) (e : GoType) (opts : tagOptions) :
    p.read (.slice e) opts
      = (p.applyMapping (getTypeFromMapping (.slice e))).readFromSlice (.slice e) := by
  rw [Property.read, Property.readFromSlice]

theorem read_map_eq (p : Property) (k v : GoType) (opts : tagOptions) :
    p.read (.mapT k v) opts
      = (p.applyMapping (getTypeFromMapping (.mapT k v))).readFromMap (.mapT k v) := by
  rw [Property.read, Property.readFromMap]

theorem read_struct_eq (p : Property) (n : String) (fs : FieldList) (opts : tagOptions)
    (h : formatMapping n = none) :
    p.read (.structT n fs) opts
      = (p.applyMapping (getTypeFromMapping (.structT n fs))).readFromStruct (.structT n fs) := by
  rw [Property.read, Property.readFromStruct]
  simp only [getTypeFromMapping, GoType.typeString, h, GoType.kind, kindMapping]

theorem read_ptr_eq (p : Property) (e : GoType) (opts : tagOptions) :
    p.read (.ptr e) opts = p.read e opts := by
  rw [Property.read]
  simp only [getTypeFromMapping, formatMapping_ptr, GoType.kind, kindMapping,
    Property.applyMapping]
  simp


@[simp] theorem Property.type_mk (t f : String) (i : Items) (pr : PropsOpt)
    (r : List String) (a : Bool) : (Property.mk t f i pr r a).type = t := rfl

@[simp] theorem Property.format_mk (t f : String) (i : Items) (pr : PropsOpt)
    (r : List String) (a : Bool) : (Property.mk t f i pr r a).format = f := rfl

@[simp] theorem Property.items_mk (t f : String) (i : Items) (pr : PropsOpt)
    (r : List String) (a : Bool) : (Property.mk t f i pr r a).items = i := rfl

@[simp] theorem Property.properties_mk (t f : String) (i : Items) (pr : PropsOpt)
    (r : List String) (a : Bool) : (Property.mk t f i pr r a).properties = pr := rfl

@[simp] theorem Property.required_mk (t f : String) (i : Items) (pr : PropsOpt)
    (r : List String) (a : Bool) : (Property.mk t f i pr r a).required = r := rfl

@[simp] theorem Property.additionalProperties_mk (t f : String) (i : Items) (pr : PropsOpt)
    (r : List String) (a : Bool) : (Property.mk t f i pr r a).additionalProperties = a := rfl

@[simp] theorem Property.withType_mk (t f : String) (i : Items) (pr : PropsOpt)
    (r : List String) (a : Bool) (x : String) :
    (Property.mk t f i pr r a).withType x = Property.mk x f i pr r a := rfl

@[simp] theorem Property.withFormat_mk (t f : String) (i : Items) (pr : PropsOpt)
    (r : List String) (a : Bool) (x : String) :
    (Property.mk t f i pr r a).withFormat x = Property.mk t x i pr r a := rfl

@[simp] theorem Property.withItems_mk (t f : String) (i : Items) (pr : PropsOpt)
    (r : List String) (a : Bool) (x : Items) :
    (Property.mk t f i pr r a).withItems x = Property.mk t f x pr r a := rfl

@[simp] theorem Property.withProperties_mk (t f : String) (i : Items) (pr : PropsOpt)
    (r : List String) (a : Bool) (x : PropsOpt) :
    (Property.mk t f i pr r a).withProperties x = Property.mk t f i x r a := rfl

@[simp] theorem Property.withRequired_mk (t f : String) (i : Items) (pr : PropsOpt)
    (r : List String) (a : Bool) (x : List String) :
    (Property.mk t f i pr r a).withRequired x = Property.mk t f i pr x a := rfl

@[simp] theorem Property.withAdditionalProperties_mk (t f : String) (i : Items) (pr : PropsOpt)
    (r : List String) (a : Bool) (x : Bool) :
    (Property.mk t f i pr r a).withAdditionalProperties x = Property.mk t f i pr r x := rfl

@[simp] theorem Property.propertiesList_mk (t f : String) (i : Items) (pr : PropsOpt)
    (r : List String) (a : Bool) :
    (Property.mk t f i pr r a).propertiesList
      = (match pr with | .none => PropList.nil | .some ps => ps) := rfl

@[simp] theorem PropsOpt.listOf_some (ps : PropList) : (PropsOpt.some ps).listOf = ps := rfl

@[simp] theorem PropsOpt.listOf_none : PropsOpt.none.listOf = .nil := rfl

theorem propertiesList_eq_listOf (p : Property) : p.propertiesList = p.properties.listOf := by
  cases p with
  | mk t f i pr r a => cases pr <;> rfl

/-- Induction over a field list alone (the mutual eliminator of the
`GoType`/`FieldList` family is inconvenient for tactic proofs). -/
theorem FieldList.fieldListInduction (motive : FieldList → Prop) (hnil : motive .nil)
    (hcons : ∀ n t a ty rest, motive rest → motive (.cons n t a ty rest)) :
    ∀ fs : FieldList, motive fs
  | .nil => hnil
  | .cons n t a ty rest => hcons n t a ty rest (fieldListInduction motive hnil hcons rest)

/-- Induction over a property list alone. -/
theorem PropList.propListInduction (motive : PropList → Prop) (hnil : motive .nil)
    (hcons : ∀ n p rest, motive rest → motive (.cons n p rest)) :
    ∀ ps : PropList, motive ps
  | .nil => hnil
  | .cons n p rest => hcons n p rest (propListInduction motive hnil hcons rest)

/-- Induction over a value list alone. -/
theorem GoValueList.goValueListInduction (motive : GoValueList → Prop) (hnil : motive .nil)
    (hcons : ∀ v rest, motive rest → motive (.cons v rest)) :
    ∀ vs : GoValueList, motive vs
  | .nil => hnil
  | .cons v rest => hcons v rest (goValueListInduction motive hnil hcons rest)

/-- Induction over a map entry list alone. -/
theorem GoEntryList.goEntryListInduction (motive : GoEntryList → Prop) (hnil : motive .nil)
    (hcons : ∀ k v rest, motive rest → motive (.cons k v rest)) :
    ∀ es : GoEntryList, motive es
  | .nil => hnil
  | .cons k v rest => hcons k v rest (goEntryListInduction motive hnil hcons rest)

/-- The field loop only touches `Properties` and `Required`; its effect on
them is `propsAfter` and an append of `reqDelta`. -/
theorem readFields_eq (fs : FieldList) : ∀ p : Property,
    p.readFields fs = Property.mk p.type p.format p.items (propsAfter p.properties fs)
      (p.required ++ reqDelta fs) p.additionalProperties := by
  induction fs using FieldList.fieldListInduction with
  | hnil =>
    intro p
    cases p
    simp [Property.readFields, propsAfter, reqDelta]
  | hcons fname ftag fanon fty rest ih =>
    intro p
    cases p with
    | mk t f i pr r a =>
      rw [Property.readFields]
      simp only [fieldName] at *
      by_cases hname : (if (parseTag ftag).1 = "" then fname else (parseTag ftag).1) = "-"
      · rw [if_pos hname, ih]
        simp [propsAfter, reqDelta, fieldName, hname]
      · rw [if_neg hname]
        by_cases hanon : fanon = true
        · subst hanon
          simp only [if_true]
          rw [ih]
          simp only [propsAfter, reqDelta, fieldName, if_neg hname, if_true,
            Property.withProperties_mk, Property.withRequired_mk, Property.required_mk,
            Property.propertiesList_mk, Property.type_mk, Property.format_mk,
            Property.items_mk, Property.properties_mk, Property.additionalProperties_mk]
          cases pr <;> simp [PropsOpt.listOf, List.append_assoc]
        · simp only [Bool.not_eq_true] at hanon
          subst hanon
          simp only [Bool.false_eq_true, if_false]
          by_cases homit : tagOptions.Contains (parseTag ftag).2 "omitempty" = true
          · rw [if_pos homit, ih]
            simp only [propsAfter, reqDelta, fieldName, if_neg hname, Bool.false_eq_true,
              if_false, if_pos homit, Property.withProperties_mk, Property.required_mk,
              Property.propertiesList_mk, Property.type_mk, Property.format_mk,
              Property.items_mk, Property.properties_mk, Property.additionalProperties_mk]
            cases pr <;> simp [PropsOpt.listOf]
          · simp only [Bool.not_eq_true] at homit
            rw [if_neg (by simp [homit]), ih]
            simp only [propsAfter, reqDelta, fieldName, if_neg hname, Bool.false_eq_true,
              if_false, homit, Property.withProperties_mk, Property.withRequired_mk,
              Property.required_mk, Property.propertiesList_mk, Property.type_mk,
              Property.format_mk, Property.items_mk, Property.properties_mk,
              Property.additionalProperties_mk]
            cases pr <;> simp [PropsOpt.listOf, List.append_assoc]

@[simp] theorem PropList.append_nil (l : PropList) : l.append .nil = l := by
  induction l using PropList.propListInduction with
  | hnil => rfl
  | hcons n p rest ih => simp [PropList.append, ih]

theorem PropList.append_assoc (a b c : PropList) :
    (a.append b).append c = a.append (b.append c) := by
  induction a using PropList.propListInduction with
  | hnil => rfl
  | hcons n p rest ih => simp [PropList.append, ih]

@[simp] theorem PropList.keys_append (a b : PropList) :
    (a.append b).keys = a.keys ++ b.keys := by
  induction a using PropList.propListInduction with
  | hnil => rfl
  | hcons n p rest ih => simp [PropList.append, PropList.keys, ih]

theorem mem_keys_insertProp (l : PropList) (k : String) (v : Property) (a : String) :
    a ∈ (insertProp l k v).keys ↔ a = k ∨ a ∈ l.keys := by
  induction l using PropList.propListInduction with
  | hnil => simp [insertProp, PropList.keys]
  | hcons n p rest ih =>
    by_cases h : n = k
    · subst h
      simp only [insertProp, if_pos rfl, PropList.keys, List.mem_cons]
      tauto
    · simp only [insertProp, if_neg h, PropList.keys, List.mem_cons, ih]
      tauto

theorem insertProp_of_not_mem (l : PropList) (k : String) (v : Property)
    (h : k ∉ l.keys) : insertProp l k v = l.append (.cons k v .nil) := by
  induction l using PropList.propListInduction with
  | hnil => rfl
  | hcons n p rest ih =>
    simp only [PropList.keys, List.mem_cons] at h
    push_neg at h
    simp [insertProp, PropList.append, Ne.symm h.1, ih h.2]

theorem mem_keys_mergeProps_left (e : PropList) : ∀ l : PropList, ∀ a : String,
    a ∈ l.keys → a ∈ (mergeProps l e).keys := by
  induction e using PropList.propListInduction with
  | hnil => intro l a h; exact h
  | hcons k v rest ih =>
    intro l a h
    exact ih _ _ ((mem_keys_insertProp l k v a).2 (Or.inr h))

theorem mem_keys_mergeProps_right (e : PropList) : ∀ l : PropList, ∀ a : String,
    a ∈ e.keys → a ∈ (mergeProps l e).keys := by
  induction e using PropList.propListInduction with
  | hnil => intro l a h; cases h
  | hcons k v rest ih =>
    intro l a h
    rw [PropList.keys, List.mem_cons] at h
    cases h with
    | inl h =>
      subst h
      exact mem_keys_mergeProps_left rest _ _ ((mem_keys_insertProp l a v a).2 (Or.inl rfl))
    | inr h => exact ih _ _ h

theorem propsAfter_append (a : FieldList) : ∀ (b : FieldList) (pr : PropsOpt),
    propsAfter pr (a.append b) = propsAfter (propsAfter pr a) b := by
  induction a using FieldList.fieldListInduction with
  | hnil => intro b pr; rfl
  | hcons n t an ty rest ih =>
    intro b pr
    rw [FieldList.append, propsAfter, propsAfter]
    by_cases h : fieldName n t = "-"
    · simp [h, ih]
    · by_cases ha : an = true <;> simp [h, ha, ih]

theorem reqDelta_append (a : FieldList) : ∀ b : FieldList,
    reqDelta (a.append b) = reqDelta a ++ reqDelta b := by
  induction a using FieldList.fieldListInduction with
  | hnil => intro b; rfl
  | hcons n t an ty rest ih =>
    intro b
    rw [FieldList.append, reqDelta, reqDelta]
    by_cases h : fieldName n t = "-"
    · simp [h, ih]
    · by_cases ha : an = true
      · simp [h, ha, ih]
      · by_cases homit : tagOptions.Contains (parseTag t).2 "omitempty" = true <;>
          simp [h, ha, homit, ih]

theorem mem_keys_propsAfter (fs : FieldList) : ∀ (pr : PropsOpt) (a : String),
    a ∈ pr.listOf.keys → a ∈ (propsAfter pr fs).listOf.keys := by
  induction fs using FieldList.fieldListInduction with
  | hnil => intro pr a h; exact h
  | hcons n t an ty rest ih =>
    intro pr a h
    rw [propsAfter]
    by_cases hn : fieldName n t = "-"
    · simp only [hn, if_pos rfl]
      exact ih pr a h
    · rw [if_neg hn]
      by_cases ha : an = true
      · simp only [ha, if_pos rfl]
        exact ih _ _ (by simpa using mem_keys_mergeProps_left _ _ _ h)
      · simp only [ha, Bool.false_eq_true, if_false]
        exact ih _ _ (by simpa using (mem_keys_insertProp _ _ _ _).2 (Or.inr h))

/-- `property.read` on a struct type whose name is not in the named-type
table: type becomes `"object"`, `additionalProperties` `false`, the
properties map is rebuilt from scratch by the field loop, and the field
loop's required names are appended to the existing `Required`. -/
theorem read_structT (n : String) (fs : FieldList) (p : Property) (opts : tagOptions)
    (h : formatMapping n = none) :
    p.read (.structT n fs) opts
      = Property.mk "object" p.format p.items (propsAfter (.some .nil) fs)
          (p.required ++ reqDelta fs) false := by
  have hm : getTypeFromMapping (.structT n fs) = ("object", "", Kind.struct) := by
    simp [getTypeFromMapping, GoType.typeString, h, GoType.kind, kindMapping]
  rw [read_struct_eq _ _ _ _ h, Property.readFromStruct, hm]
  cases p with
  | mk t f i pr r a =>
    simp only [Property.applyMapping, ne_eq, reduceIte, Property.withType_mk]
    rw [readFields_eq]
    simp

theorem propsAfter_noanon (fs : FieldList) : ∀ acc : PropList,
    fs.noAnonymous = true → (propsDelta fs).keys.Nodup →
    (∀ a ∈ (propsDelta fs).keys, a ∉ acc.keys) →
    propsAfter (.some acc) fs = .some (acc.append (propsDelta fs)) := by
  induction fs using FieldList.fieldListInduction with
  | hnil => intro acc _ _ _; simp [propsAfter, propsDelta]
  | hcons fname ftag fanon fty rest ih =>
    intro acc hna hnd hdisj
    rw [FieldList.noAnonymous, Bool.and_eq_true, Bool.not_eq_true'] at hna
    rw [propsDelta] at hnd hdisj ⊢
    rw [propsAfter]
    by_cases hn : fieldName fname ftag = "-"
    · rw [if_pos hn] at hnd hdisj ⊢
      rw [if_pos hn]
      exact ih acc hna.2 hnd hdisj
    · rw [if_neg hn] at hnd hdisj ⊢
      rw [if_neg hn, hna.1]
      simp only [Bool.false_eq_true, if_false, PropsOpt.listOf_some]
      rw [PropList.keys] at hnd hdisj
      have hnotin : fieldName fname ftag ∉ acc.keys :=
        hdisj _ (List.mem_cons_self _ _)
      rw [insertProp_of_not_mem _ _ _ hnotin]
      rw [List.nodup_cons] at hnd
      rw [ih _ hna.2 hnd.2 ?_, PropList.append_assoc]
      · rfl
      · intro a ha
        simp only [PropList.keys_append, PropList.keys, List.mem_append, List.mem_cons,
          List.not_mem_nil, or_false]
        push_neg
        refine ⟨hdisj a (List.mem_cons_of_mem _ ha), ?_⟩
        intro hak
        exact hnd.1 (hak ▸ ha)

theorem readDeepFields_eq (fs : FieldList) : ∀ (vs : GoValueList) (p : Property),
    p.readDeepFields fs vs = Property.mk p.type p.format p.items
      (propsAfterDeep p.properties fs vs) (p.required ++ reqDeltaDeep fs vs)
      p.additionalProperties := by
  induction fs using FieldList.fieldListInduction with
  | hnil =>
    intro vs p
    cases p
    cases vs <;> simp [Property.readDeepFields, propsAfterDeep, reqDeltaDeep]
  | hcons fname ftag fanon fty rest ih =>
    intro vs p
    cases vs with
    | nil =>
      cases p
      simp [Property.readDeepFields, propsAfterDeep, reqDeltaDeep]
    | cons val vrest =>
      cases p with
      | mk t f i pr r a =>
        rw [Property.readDeepFields]
        simp only [fieldName] at *
        by_cases hname : (if (parseTag ftag).1 = "" then fname else (parseTag ftag).1) = "-"
        · rw [if_pos hname, ih]
          simp [propsAfterDeep, reqDeltaDeep, fieldName, hname]
        · rw [if_neg hname]
          by_cases hanon : fanon = true
          · subst hanon
            simp only [if_true]
            rw [ih]
            simp only [propsAfterDeep, reqDeltaDeep, fieldName, if_neg hname, if_true,
              Property.withProperties_mk, Property.withRequired_mk, Property.required_mk,
              Property.propertiesList_mk, Property.type_mk, Property.format_mk,
              Property.items_mk, Property.properties_mk, Property.additionalProperties_mk]
            cases pr <;> simp [PropsOpt.listOf, List.append_assoc]
          · simp only [Bool.not_eq_true] at hanon
            subst hanon
            simp only [Bool.false_eq_true, if_false]
            by_cases homit : tagOptions.Contains (parseTag ftag).2 "omitempty" = true
            · rw [if_pos homit, ih]
              simp only [propsAfterDeep, reqDeltaDeep, fieldName, if_neg hname,
                Bool.false_eq_true, if_false, if_pos homit, Property.withProperties_mk,
                Property.required_mk, Property.propertiesList_mk, Property.type_mk,
                Property.format_mk, Property.items_mk, Property.properties_mk,
                Property.additionalProperties_mk]
              cases pr <;> simp [PropsOpt.listOf]
            · simp only [Bool.not_eq_true] at homit
              rw [if_neg (by simp [homit]), ih]
              simp only [propsAfterDeep, reqDeltaDeep, fieldName, if_neg hname,
                Bool.false_eq_true, if_false, homit, Property.withProperties_mk,
                Property.withRequired_mk, Property.required_mk, Property.propertiesList_mk,
                Property.type_mk, Property.format_mk, Property.items_mk,
                Property.properties_mk, Property.additionalProperties_mk]
              cases pr <;> simp [PropsOpt.listOf, List.append_assoc]

theorem propsAfterDeep_append (a : FieldList) : ∀ (va : GoValueList) (b : FieldList)
    (vb : GoValueList) (pr : PropsOpt), a.length = va.length →
    propsAfterDeep pr (a.append b) (va.append vb)
      = propsAfterDeep (propsAfterDeep pr a va) b vb := by
  induction a using FieldList.fieldListInduction with
  | hnil =>
    intro va b vb pr hlen
    cases va with
    | nil => rfl
    | cons v rest => simp [FieldList.length, GoValueList.length] at hlen
  | hcons n t an ty rest ih =>
    intro va b vb pr hlen
    cases va with
    | nil => simp [FieldList.length, GoValueList.length] at hlen
    | cons v vrest =>
      rw [FieldList.length, GoValueList.length, Nat.add_right_cancel_iff] at hlen
      rw [FieldList.append, GoValueList.append, propsAfterDeep, propsAfterDeep]
      by_cases h : fieldName n t = "-"
      · simp [h, ih _ _ _ _ hlen]
      · by_cases ha : an = true <;> simp [h, ha, ih _ _ _ _ hlen]

theorem reqDeltaDeep_append (a : FieldList) : ∀ (va : GoValueList) (b : FieldList)
    (vb : GoValueList), a.length = va.length →
    reqDeltaDeep (a.append b) (va.append vb) = reqDeltaDeep a va ++ reqDeltaDeep b vb := by
  induction a using FieldList.fieldListInduction with
  | hnil =>
    intro va b vb hlen
    cases va with
    | nil => rfl
    | cons v rest => simp [FieldList.length, GoValueList.length] at hlen
  | hcons n t an ty rest ih =>
    intro va b vb hlen
    cases va with
    | nil => simp [FieldList.length, GoValueList.length] at hlen
    | cons v vrest =>
      rw [FieldList.length, GoValueList.length, Nat.add_right_cancel_iff] at hlen
      rw [FieldList.append, GoValueList.append, reqDeltaDeep, reqDeltaDeep]
      by_cases h : fieldName n t = "-"
      · simp [h, ih _ _ _ hlen]
      · by_cases ha : an = true
        · simp [h, ha, ih _ _ _ hlen]
        · by_cases homit : tagOptions.Contains (parseTag t).2 "omitempty" = true <;>
            simp [h, ha, homit, ih _ _ _ hlen]

theorem mem_keys_propsAfterDeep (fs : FieldList) : ∀ (vs : GoValueList) (pr : PropsOpt)
    (a : String), a ∈ pr.listOf.keys → a ∈ (propsAfterDeep pr fs vs).listOf.keys := by
  induction fs using FieldList.fieldListInduction with
  | hnil => intro vs pr a h; exact h
  | hcons n t an ty rest ih =>
    intro vs pr a h
    cases vs with
    | nil => exact h
    | cons v vrest =>
      rw [propsAfterDeep]
      by_cases hn : fieldName n t = "-"
      · rw [if_pos hn]
        exact ih vrest pr a h
      · rw [if_neg hn]
        by_cases ha : an = true
        · simp only [ha, if_pos rfl]
          exact ih _ _ _ (by simpa using mem_keys_mergeProps_left _ _ _ h)
        · simp only [ha, Bool.false_eq_true, if_false]
          exact ih _ _ _ (by simpa using (mem_keys_insertProp _ _ _ _).2 (Or.inr h))

/-- `property.readDeep` on a struct value of a struct type whose name is
not in the named-type table. -/
theorem readDeep_structV (n : String) (fs : FieldList) (vals : GoValueList) (p : Property)
    (opts : tagOptions) (h : formatMapping n = none) :
    p.readDeep (.structV (.structT n fs) vals) opts
      = Property.mk "object" p.format p.items (propsAfterDeep (.some .nil) fs vals)
          (p.required ++ reqDeltaDeep fs vals) false := by
  have hm : getTypeFromMapping (GoValue.structV (.structT n fs) vals).typeOf
      = ("object", "", Kind.struct) := by
    simp [GoValue.typeOf, getTypeFromMapping, GoType.typeString, h, GoType.kind, kindMapping]
  cases p with
  | mk t f i pr r a =>
    rw [Property.readDeep, hm]
    simp only [reduceIte]
    rw [readDeepFields_eq]
    simp [Property.applyMapping]

theorem applyMapping_empty (p : Property) (k : Kind) :
    p.applyMapping ("", "", k) = p := by
  cases p
  simp [Property.applyMapping]

theorem getTypeFromMapping_slice (e : GoType) :
    getTypeFromMapping (.slice e) = ("array", "", Kind.slice) := by
  rw [getTypeFromMapping, formatMapping_slice e]
  simp [GoType.kind, kindMapping]

theorem getTypeFromMapping_mapT (k v : GoType) :
    getTypeFromMapping (.mapT k v) = ("object", "", Kind.map) := by
  rw [getTypeFromMapping, formatMapping_mapT k v]
  simp [GoType.kind, kindMapping]

theorem getTypeFromMapping_ptr (e : GoType) :
    getTypeFromMapping (.ptr e) = ("", "", Kind.ptr) := by
  rw [getTypeFromMapping, formatMapping_ptr e]
  simp [GoType.kind, kindMapping]

theorem getTypeFromMapping_iface :
    getTypeFromMapping .ifaceT = ("", "", Kind.interface) := by
  rfl

/-- Deep mode on a non-nil pointer value recurses directly into the
pointee value, leaving the node untouched beforehand. -/
theorem readDeep_ptrV_some (p : Property) (elemT : GoType) (x : GoValue)
    (opts : tagOptions) :
    p.readDeep (.ptrV elemT (.some x)) opts = p.readDeep x opts := by
  rw [Property.readDeep.eq_def]
  simp only [GoValue.typeOf, getTypeFromMapping_ptr, reduceIte, applyMapping_empty]

/-- Deep mode on a nil pointer value writes the null type. -/
theorem readDeep_ptrV_none (p : Property) (elemT : GoType) (opts : tagOptions) :
    p.readDeep (.ptrV elemT .none) opts = p.withType "null" := by
  rw [Property.readDeep.eq_def]
  simp only [GoValue.typeOf, getTypeFromMapping_ptr, reduceIte, applyMapping_empty]

/-- Deep mode on a non-nil interface value unwraps to the payload. -/
theorem readDeep_ifaceV_some (p : Property) (x : GoValue) (opts : tagOptions) :
    p.readDeep (.ifaceV (.some x)) opts = p.readDeep x opts := by
  rw [Property.readDeep.eq_def]
  simp only [GoValue.typeOf, getTypeFromMapping_iface, reduceIte, applyMapping_empty]

theorem readDeep_slice_eq (p : Property) (elemT : GoType) (elems : GoValueList)
    (opts : tagOptions) :
    p.readDeep (.sliceV elemT elems) opts
      = (p.applyMapping ("array", "", Kind.slice)).readFromSliceDeep (.sliceV elemT elems) := by
  cases elems with
  | nil =>
    rw [Property.readDeep.eq_def, Property.readFromSliceDeep]
    simp only [GoValue.typeOf, getTypeFromMapping_slice, reduceIte]
  | cons e rest =>
    rw [Property.readDeep.eq_def, Property.readFromSliceDeep]
    simp only [GoValue.typeOf, getTypeFromMapping_slice, reduceIte]

theorem readDeep_map_eq (p : Property) (keyT valT : GoType) (entries : GoEntryList)
    (opts : tagOptions) :
    p.readDeep (.mapV keyT valT entries) opts
      = (p.applyMapping ("object", "", Kind.map)).readFromMapDeep (.mapV keyT valT entries) := by
  rw [Property.readDeep.eq_def, Property.readFromMapDeep]
  simp only [GoValue.typeOf, getTypeFromMapping_mapT, reduceIte]

theorem readDeep_struct_eq (p : Property) (n : String) (fs : FieldList)
    (vals : GoValueList) (opts : tagOptions) (h : formatMapping n = none) :
    p.readDeep (.structV (.structT n fs) vals) opts
      = (p.applyMapping ("object", "", Kind.struct)).readFromStructDeep
          (.structV (.structT n fs) vals) := by
  have hm : getTypeFromMapping (GoValue.structV (.structT n fs) vals).typeOf
      = ("object", "", Kind.struct) := by
    simp [GoValue.typeOf, getTypeFromMapping, GoType.typeString, h, GoType.kind, kindMapping]
  rw [Property.readDeep.eq_def, Property.readFromStructDeep]
  simp only [hm, reduceIte]

/-- Two key-sorted pair lists that are permutations of each other and have
no duplicate keys are equal: sorting by key is canonical on map contents. -/
theorem sorted_perm_eq_of_nodup_keys : ∀ (l1 l2 : List (String × String)),
    l1.Sorted pairLe → l2.Sorted pairLe → l1.Perm l2 →
    (l1.map Prod.fst).Nodup → l1 = l2 := by
  intro l1
  induction l1 with
  | nil =>
    intro l2 _ _ hp _
    exact hp.nil_eq
  | cons a t1 ih =>
    intro l2 hs1 hs2 hp hnd
    cases l2 with
    | nil => exact absurd hp.symm (by simp)
    | cons b t2 =>
      rw [List.sorted_cons] at hs1 hs2
      have hab : a = b := by
        have hbin : b ∈ a :: t1 := hp.mem_iff.2 (List.mem_cons_self b t2)
        have hain : a ∈ b :: t2 := hp.mem_iff.1 (List.mem_cons_self a t1)
        have h1 : pairLe a b ∨ a = b := by
          rcases List.mem_cons.1 hbin with hb | hb
          · exact Or.inr hb.symm
          · exact Or.inl (hs1.1 b hb)
        have h2 : pairLe b a ∨ a = b := by
          rcases List.mem_cons.1 hain with ha | ha
          · exact Or.inr ha
          · exact Or.inl (hs2.1 a ha)
        rcases h1 with h1 | h1
        · rcases h2 with h2 | h2
          · have hkey : a.1 = b.1 := by
              have hd : a.1.data = b.1.data := le_antisymm h1 h2
              exact String.ext hd
            rcases List.mem_cons.1 hbin with hb | hb
            · exact hb.symm
            · exfalso
              rw [List.map, List.nodup_cons] at hnd
              exact hnd.1 (hkey ▸ List.mem_map_of_mem Prod.fst hb)
          · exact h2
        · exact h1
      subst hab
      have hp' : t1.Perm t2 := hp.cons_inv
      rw [List.map, List.nodup_cons] at hnd
      rw [ih t2 hs1.2 hs2.2 hp' hnd.2]

theorem sortPairs_perm_eq (l1 l2 : List (String × String)) (hp : l1.Perm l2)
    (hnd : (l1.map Prod.fst).Nodup) : sortPairs l1 = sortPairs l2 := by
  apply sorted_perm_eq_of_nodup_keys
  · exact List.sorted_insertionSort pairLe l1
  · exact List.sorted_insertionSort pairLe l2
  · exact (List.perm_insertionSort pairLe l1).trans (hp.trans (List.perm_insertionSort pairLe l2).symm)
  · exact ((List.perm_insertionSort pairLe l1).map Prod.fst).nodup_iff.2 hnd

theorem renderPropList_toList (ps : PropList) :
    renderPropList ps = ps.toList.map (fun kv => (kv.1, renderProperty kv.2)) := by
  induction ps using PropList.propListInduction with
  | hnil => rfl
  | hcons n p rest ih => simp [renderPropList, PropList.toList, ih, renderProperty]

theorem keys_eq_toList_map (ps : PropList) : ps.keys = ps.toList.map Prod.fst := by
  induction ps using PropList.propListInduction with
  | hnil => rfl
  | hcons n p rest ih => simp [PropList.keys, PropList.toList, ih]

theorem mapKeyToString_plain (k : GoValue) (h : isPlainKey k = true) :
    mapKeyToString k = "<" ++ k.typeOf.typeString ++ " Value>" := by
  cases k <;> first
    | rfl
    | (exfalso; simp [isPlainKey] at h)

theorem allKeysOfType_named (t : GoType) (es : GoEntryList)
    (h : es.allKeysOfType t = true) :
    es.allKeysNamed ("<" ++ t.typeString ++ " Value>") = true := by
  induction es using GoEntryList.goEntryListInduction with
  | hnil => rfl
  | hcons k v rest ih =>
    rw [GoEntryList.allKeysOfType, Bool.and_eq_true, Bool.and_eq_true] at h
    rw [GoEntryList.allKeysNamed, Bool.and_eq_true]
    refine ⟨?_, ih h.2⟩
    rw [beq_iff_eq]
    rw [mapKeyToString_plain k h.1.1, beq_iff_eq.1 h.1.2]

theorem keys_singleton_shape (acc : PropList) (n : String) (h : acc.keys = [n]) :
    ∃ p, acc = .cons n p .nil := by
  cases acc with
  | nil => simp [PropList.keys] at h
  | cons m p rest =>
    rw [PropList.keys] at h
    have hm : m = n := (List.cons.injEq _ _ _ _ ▸ h).1
    have hr : rest.keys = [] := (List.cons.injEq _ _ _ _ ▸ h).2
    have : rest = .nil := by
      cases rest with
      | nil => rfl
      | cons a b c => simp [PropList.keys] at hr
    exact ⟨p, by rw [hm, this]⟩

theorem deepEntries_keys_const (n : String) (es : GoEntryList) :
    es.allKeysNamed n = true → ∀ acc : PropList, acc.keys = [n] →
    (deepEntries es acc).keys = [n] := by
  induction es using GoEntryList.goEntryListInduction with
  | hnil => intro _ acc hacc; exact hacc
  | hcons k v rest ih =>
    intro hall acc hacc
    rw [GoEntryList.allKeysNamed, Bool.and_eq_true] at hall
    rw [deepEntries]
    obtain ⟨p, hp⟩ := keys_singleton_shape acc n hacc
    subst hp
    rw [beq_iff_eq.1 hall.1]
    rw [insertProp]
    rw [if_pos rfl]
    exact ih hall.2 _ (by rw [PropList.keys, PropList.keys])

theorem PropList.keys_length (ps : PropList) : ps.keys.length = ps.length := by
  induction ps using PropList.propListInduction with
  | hnil => rfl
  | hcons n p rest ih => simp [PropList.keys, PropList.length, ih]

/-- C1: for an empty `map[string]int`, shallow inference yields the single
synthetic wildcard property `".*"` of type `"integer"` (and the object
type), while deep inference on the same empty map leaves `properties`
entirely unset and infers nothing about the value type. -/
theorem C1_empty_map_wildcard_vs_unset :
    Property.empty.read (GoType.mapT goString goInt) ("" : String)
      = Property.mk "object" "" .none
          (.some (.cons ".*" (.mk "integer" "" .none .none [] false) .nil)) [] false
    ∧ Property.empty.readDeep (GoValue.mapV goString goInt .nil) ("" : String)
      = Property.mk "object" "" .none .none [] false := by
  decide

/-- C2: shallow inference over a record with only ordinary (non-anonymous)
members whose resolved names are distinct and whose type name is not in
the named-type table stores exactly one child node per non-excluded member
under its resolved name (`propsDelta`), and `required` collects exactly
the resolved names of the members whose tag options lack `omitempty`
(`reqDelta`). -/
theorem C2_struct_members_and_required (n : String) (fs : FieldList)
    (hfmt : formatMapping n = none)
    (hanon : fs.noAnonymous = true)
    (hnd : (propsDelta fs).keys.Nodup) :
    Property.empty.read (.structT n fs) ("" : String)
      = Property.mk "object" "" .none (.some (propsDelta fs)) (reqDelta fs) false := by
  rw [show Property.empty = Property.mk "" "" .none .none [] false from rfl]
  rw [read_structT _ _ _ _ hfmt]
  rw [propsAfter_noanon fs .nil hanon hnd (by intro a _; simp [PropList.keys])]
  simp [PropList.append]

/-- C2 witness: the record `{A: bool, B: string tagged omitempty}` gets
`properties = {A: boolean, B: string}` and `required = [A]`. -/
theorem C2_witness :
    (formatMapping "main.T" = none ∧ fieldsAB.noAnonymous = true
      ∧ (propsDelta fieldsAB).keys.Nodup)
    ∧ Property.empty.read (.structT "main.T" fieldsAB) ("" : String)
        = Property.mk "object" "" .none (.some (propsDelta fieldsAB)) (reqDelta fieldsAB) false
    ∧ propsDelta fieldsAB
        = .cons "A" (.mk "boolean" "" .none .none [] false)
            (.cons "B" (.mk "string" "" .none .none [] false) .nil)
    ∧ reqDelta fieldsAB = ["A"] :=
  ⟨⟨by decide, by decide, by decide⟩,
    C2_struct_members_and_required "main.T" fieldsAB (by decide) (by decide) (by decide),
    by decide, by decide⟩

/-- C3: a non-excluded anonymous/embedded member is spliced into the
parent: every key of the embedded member's inferred properties appears
directly among the parent's property keys (flattened), and the embedded
node's required names appear in the parent's required as one contiguous
appended block — in shallow mode and in deep mode. -/
theorem C3_embedded_splice (n aname atag : String) (aty : GoType)
    (fs1 fs2 : FieldList) (vals1 : GoValueList) (aval : GoValue) (vals2 : GoValueList)
    (hfmt : formatMapping n = none)
    (hname : fieldName aname atag ≠ "-")
    (hlen : fs1.length = vals1.length) :
    (∀ k, k ∈ (Property.empty.read aty (parseTag atag).2).propertiesList.keys →
        k ∈ (Property.empty.read
              (.structT n (fs1.append (.cons aname atag true aty fs2)))
              ("" : String)).propertiesList.keys)
    ∧ (∃ pre post, (Property.empty.read
          (.structT n (fs1.append (.cons aname atag true aty fs2)))
          ("" : String)).required
        = pre ++ (Property.empty.read aty (parseTag atag).2).required ++ post)
    ∧ (∀ k, k ∈ (Property.empty.readDeep aval (parseTag atag).2).propertiesList.keys →
        k ∈ (Property.empty.readDeep
              (.structV (.structT n (fs1.append (.cons aname atag true aty fs2)))
                (vals1.append (.cons aval vals2)))
              ("" : String)).propertiesList.keys)
    ∧ (∃ pre post, (Property.empty.readDeep
          (.structV (.structT n (fs1.append (.cons aname atag true aty fs2)))
            (vals1.append (.cons aval vals2)))
          ("" : String)).required
        = pre ++ (Property.empty.readDeep aval (parseTag atag).2).required ++ post) := by
  have hshallow := read_structT n (fs1.append (.cons aname atag true aty fs2))
    Property.empty ("" : String) hfmt
  have hdeep := readDeep_structV n (fs1.append (.cons aname atag true aty fs2))
    (vals1.append (.cons aval vals2)) Property.empty ("" : String) hfmt
  refine ⟨?_, ?_, ?_, ?_⟩
  · intro k hk
    rw [hshallow, propertiesList_eq_listOf]
    simp only [Property.properties_mk]
    rw [propsAfter_append fs1 (.cons aname atag true aty fs2) (.some .nil)]
    rw [propsAfter, if_neg hname, if_pos rfl]
    refine mem_keys_propsAfter fs2 _ k ?_
    simp only [PropsOpt.listOf_some]
    exact mem_keys_mergeProps_right _ _ _ hk
  · rw [hshallow]
    simp only [Property.required_mk]
    rw [reqDelta_append fs1 (.cons aname atag true aty fs2)]
    rw [reqDelta, if_neg hname, if_pos rfl]
    exact ⟨reqDelta fs1, reqDelta fs2, by
      simp [Property.empty, List.append_assoc]⟩
  · intro k hk
    rw [hdeep, propertiesList_eq_listOf]
    simp only [Property.properties_mk]
    rw [propsAfterDeep_append fs1 vals1 (.cons aname atag true aty fs2)
      (.cons aval vals2) (.some .nil) hlen]
    rw [propsAfterDeep, if_neg hname, if_pos rfl]
    refine mem_keys_propsAfterDeep fs2 vals2 _ k ?_
    simp only [PropsOpt.listOf_some]
    exact mem_keys_mergeProps_right _ _ _ hk
  · rw [hdeep]
    simp only [Property.required_mk]
    rw [reqDeltaDeep_append fs1 vals1 (.cons aname atag true aty fs2)
      (.cons aval vals2) hlen]
    rw [reqDeltaDeep, if_neg hname, if_pos rfl]
    exact ⟨reqDeltaDeep fs1 vals1, reqDeltaDeep fs2 vals2, by
      simp [Property.empty, List.append_assoc]⟩

/-- C3 witness: embedding `struct { Zoo string }` makes `Zoo` appear
directly in the parent's properties (the parent's keys are exactly
`["Zoo"]`, with no nesting under the embedded type's name), and splices
its required names. -/
theorem C3_witness :
    (formatMapping "main.P" = none ∧ fieldName "E" "" ≠ "-" ∧ FieldList.nil.length = GoValueList.nil.length)
    ∧ (∀ k, k ∈ (Property.empty.read structZoo (parseTag "").2).propertiesList.keys →
        k ∈ (Property.empty.read
              (.structT "main.P" (FieldList.nil.append (.cons "E" "" true structZoo .nil)))
              ("" : String)).propertiesList.keys)
    ∧ (Property.empty.read
          (.structT "main.P" (FieldList.nil.append (.cons "E" "" true structZoo .nil)))
          ("" : String)).propertiesList.keys = ["Zoo"]
    ∧ (Property.empty.read
          (.structT "main.P" (FieldList.nil.append (.cons "E" "" true structZoo .nil)))
          ("" : String)).required = ["Zoo"] :=
  ⟨⟨by decide, by decide, by decide⟩,
    (C3_embedded_splice "main.P" "E" "" structZoo .nil .nil .nil
      (.structV structZoo (.cons (.stringV "z") .nil)) .nil
      (by decide) (by decide) (by decide)).1,
    by decide, by decide⟩

/-- C4: a pointer to a struct type produces exactly the node the struct
itself produces — shallow mode unwraps `t.Elem()` with no change to the
node, and deep mode unwraps a non-nil pointer value to its pointee with
no null-handling wrapper. -/
theorem C4_pointer_transparent (p : Property) (n : String) (fl : FieldList)
    (opts : tagOptions) (vals : GoValueList) :
    p.read (.ptr (.structT n fl)) opts = p.read (.structT n fl) opts
    ∧ p.readDeep (.ptrV (.structT n fl) (.some (.structV (.structT n fl) vals))) opts
        = p.readDeep (.structV (.structT n fl) vals) opts :=
  ⟨read_ptr_eq p (.structT n fl) opts,
    readDeep_ptrV_some p (.structT n fl) (.structV (.structT n fl) vals) opts⟩

@[simp] theorem Property.type_withType (p : Property) (x : String) :
    (p.withType x).type = x := by
  cases p
  rfl

theorem readType_prop_of (d : Document) (t : GoType) :
    (d.readType t).prop = (d.setDefaultSchema).prop.read t ("" : String) := rfl

theorem setDefaultSchema_prop (d : Document) : d.setDefaultSchema.prop = d.prop := by
  rw [Document.setDefaultSchema]
  split <;> rfl

/-- C5 (amended): a second top-level shallow inference call on a record
type rebuilds `type`, `properties` and `additionalProperties` to exactly
what a fresh Document would hold, but it appends the new required names to
the already-present `Required` instead of resetting it, and it leaves the
`Items` and `Format` of the previous call in place. -/
theorem C5_second_read_partial_overwrite (d : Document) (n : String) (fs : FieldList)
    (hfmt : formatMapping n = none) :
    ((d.readType (.structT n fs)).readType (.structT n fs)).prop.type
        = (Property.empty.read (.structT n fs) ("" : String)).type
    ∧ ((d.readType (.structT n fs)).readType (.structT n fs)).prop.properties
        = (Property.empty.read (.structT n fs) ("" : String)).properties
    ∧ ((d.readType (.structT n fs)).readType (.structT n fs)).prop.additionalProperties
        = (Property.empty.read (.structT n fs) ("" : String)).additionalProperties
    ∧ ((d.readType (.structT n fs)).readType (.structT n fs)).prop.required
        = (d.readType (.structT n fs)).prop.required
            ++ (Property.empty.read (.structT n fs) ("" : String)).required
    ∧ ((d.readType (.structT n fs)).readType (.structT n fs)).prop.items = d.prop.items
    ∧ ((d.readType (.structT n fs)).readType (.structT n fs)).prop.format = d.prop.format := by
  have h1 : (d.readType (.structT n fs)).prop = d.prop.read (.structT n fs) ("" : String) := by
    rw [readType_prop_of, setDefaultSchema_prop]
  have h2 : ((d.readType (.structT n fs)).readType (.structT n fs)).prop
      = (d.prop.read (.structT n fs) ("" : String)).read (.structT n fs) ("" : String) := by
    rw [readType_prop_of, setDefaultSchema_prop, h1]
  rw [h1, h2]
  rw [read_structT n fs d.prop ("" : String) hfmt,
    read_structT n fs (Property.mk "object" d.prop.format d.prop.items
      (propsAfter (.some .nil) fs) (d.prop.required ++ reqDelta fs) false) ("" : String) hfmt,
    read_structT n fs Property.empty ("" : String) hfmt]
  simp [Property.empty, List.append_assoc]

/-- C5 counterexample: reading the same one-field struct type twice into
one Document leaves state from the first call behind — `required` becomes
`["A", "A"]` instead of the fresh `["A"]` — so the root node after the
second call is not the node a fresh Document would produce (refuting the
claim as stated); the last conjunct ties `readType` to the `Read` entry
point. -/
theorem C5_counterexample :
    (((NewDocument "").readType structA).readType structA).prop
        ≠ ((NewDocument "").readType structA).prop
    ∧ (((NewDocument "").readType structA).readType structA).prop.required = ["A", "A"]
    ∧ ((NewDocument "").readType structA).prop.required = ["A"]
    ∧ (NewDocument "").Read (some (.primV structA))
        = some ((NewDocument "").readType structA) := by
  decide

/-- C5 witness (for the amended statement), at a one-required-field
struct: the duplicated `required` is visible concretely. -/
theorem C5_witness :
    formatMapping "main.A" = none
    ∧ ((((NewDocument "").readType structA).readType structA).prop.required
        = ((NewDocument "").readType structA).prop.required
            ++ (Property.empty.read structA ("" : String)).required) :=
  ⟨by decide,
    (C5_second_read_partial_overwrite (NewDocument "") "main.A"
      (.cons "A" "" false goBool .nil) (by decide)).2.2.2.1⟩

/-- C6 (amended): for every present input value, shallow inference
completes and produces a Document (no panic), and deep inference on an
absent/nil top-level value produces the `"null"` node; shallow inference
on an absent/nil value, by contrast, panics (see the counterexample). -/
theorem C6_present_inputs_total (d : Document) (v : GoValue) :
    (d.Read (some v)).isSome = true
    ∧ (d.ReadDeep none).prop.type = "null" := by
  constructor
  · rfl
  · show ((d.setDefaultSchema).prop.readDeep GoValue.invalid ("" : String)).type = "null"
    rw [Property.readDeep]
    simp

/-- C6 counterexample: `Document.Read(nil)` panics —
`reflect.ValueOf(nil)` is the zero `Value` and `Value.Type()` panics on
it; the panic is modelled as the `none` result. -/
theorem C6_counterexample : (NewDocument "").Read none = none := by
  decide

/-- C7 (amended): a type descriptor of pointer or dynamic/interface kind
whose name is not in the named-type table classifies to an empty primitive
type and empty format together with its kind tag; a raw-byte (`uint8`)
descriptor, by contrast, is present in the kind table and classifies to
`"integer"` (see the counterexample). -/
theorem C7_unmapped_kinds_empty (t : GoType)
    (hfmt : formatMapping t.typeString = none)
    (hk : t.kind = Kind.ptr ∨ t.kind = Kind.interface) :
    getTypeFromMapping t = ("", "", t.kind) := by
  rw [getTypeFromMapping, hfmt]
  rcases hk with h | h <;> rw [h] <;> rfl

/-- C7 witness: the interface type classifies to empty type and format
with the `interface` kind tag. -/
theorem C7_witness :
    (formatMapping (GoType.ifaceT).typeString = none
      ∧ (GoType.ifaceT.kind = Kind.ptr ∨ GoType.ifaceT.kind = Kind.interface))
    ∧ getTypeFromMapping .ifaceT = ("", "", GoType.ifaceT.kind) :=
  ⟨⟨by decide, Or.inr (by decide)⟩,
    C7_unmapped_kinds_empty .ifaceT (by decide) (Or.inr rfl)⟩

/-- C7 counterexample: the raw-byte kind is in the kind table — `classify`
on a `uint8` descriptor (not named in the format table) returns
`"integer"`, not the empty type string the claim asserts. -/
theorem C7_counterexample :
    formatMapping (GoType.prim .uint8 "uint8").typeString = none
    ∧ getTypeFromMapping (.prim .uint8 "uint8") = ("integer", "", Kind.uint8)
    ∧ ("integer" : String) ≠ "" := by
  decide

/-- C8: a sequence of raw bytes infers to `{type: "string"}` with `items`
unset: shallow mode from the declared `uint8` element kind, deep mode on
an empty byte slice (declared element type) and on a non-empty byte slice
(first element's runtime type). -/
theorem C8_byte_slice_is_string (e : GoValue) (rest : GoValueList)
    (he : e.typeOf = goByte) :
    Property.empty.read (.slice goByte) ("" : String)
        = Property.mk "string" "" .none .none [] false
    ∧ Property.empty.readDeep (.sliceV goByte .nil) ("" : String)
        = Property.mk "string" "" .none .none [] false
    ∧ Property.empty.readDeep (.sliceV goByte (.cons e rest)) ("" : String)
        = Property.mk "string" "" .none .none [] false := by
  refine ⟨by decide, by decide, ?_⟩
  rw [readDeep_slice_eq, Property.readFromSliceDeep]
  rw [he]
  rw [if_pos (show (getTypeFromMapping goByte).2.2 = Kind.uint8 by decide)]
  decide

/-- C8 witness: a concrete non-empty byte slice. -/
theorem C8_witness :
    (GoValue.primV goByte).typeOf = goByte
    ∧ Property.empty.readDeep (.sliceV goByte (.cons (.primV goByte) .nil)) ("" : String)
        = Property.mk "string" "" .none .none [] false :=
  ⟨by decide, (C8_byte_slice_is_string (.primV goByte) .nil (by decide)).2.2⟩

theorem renderPropertiesField_perm (ps1 ps2 : PropList)
    (hperm : ps1.toList.Perm ps2.toList) (hnd : ps1.keys.Nodup) :
    renderPropertiesField (.some ps1) = renderPropertiesField (.some ps2) := by
  have hr : (renderPropList ps1).Perm (renderPropList ps2) := by
    rw [renderPropList_toList, renderPropList_toList]
    exact hperm.map _
  have hnd1 : ((renderPropList ps1).map Prod.fst).Nodup := by
    rw [renderPropList_toList, List.map_map]
    rw [keys_eq_toList_map] at hnd
    exact hnd
  rw [renderPropertiesField, renderPropertiesField]
  cases h1 : renderPropList ps1 with
  | nil =>
    have h2 : renderPropList ps2 = [] := by
      rw [h1] at hr
      exact hr.nil_eq.symm
    rw [h2]
  | cons a l =>
    cases h2 : renderPropList ps2 with
    | nil =>
      rw [h2, h1] at hr
      exact absurd hr.symm (by simp)
    | cons b m =>
      have heq : renderSortedPairs (a :: l) = renderSortedPairs (b :: m) := by
        rw [renderSortedPairs, renderSortedPairs,
          sortPairs_perm_eq (a :: l) (b :: m) (h1 ▸ h2 ▸ hr) (h1 ▸ hnd1)]
      show [jstr "properties" ++ ": \x7b" ++ renderSortedPairs (a :: l) ++ "\x7d"]
        = [jstr "properties" ++ ": \x7b" ++ renderSortedPairs (b :: m) ++ "\x7d"]
      rw [heq]

/-- C9: serialization is deterministic — `Marshal` emits map entries in
sorted key order, so two Documents that differ only in the (semantically
irrelevant) iteration order of the root properties map serialize to
byte-identical text; in particular serializing a fixed Document twice is
the same text. -/
theorem C9_marshal_deterministic (S ty fm : String) (it : Items) (ps1 ps2 : PropList)
    (rq : List String) (ap : Bool)
    (hperm : ps1.toList.Perm ps2.toList) (hnd : ps1.keys.Nodup) :
    (Document.mk S (.mk ty fm it (.some ps1) rq ap)).Marshal
      = (Document.mk S (.mk ty fm it (.some ps2) rq ap)).Marshal := by
  rw [Document.Marshal, Document.Marshal]
  rw [renderPropertyFields, renderPropertyFields,
    renderPropertiesField_perm ps1 ps2 hperm hnd]

/-- C9 witness: two orders of the same two-entry root properties map
serialize identically. -/
theorem C9_witness :
    ((PropList.cons "b" (.mk "integer" "" .none .none [] false)
        (.cons "a" (.mk "string" "" .none .none [] false) .nil)).toList.Perm
      (PropList.cons "a" (.mk "string" "" .none .none [] false)
        (.cons "b" (.mk "integer" "" .none .none [] false) .nil)).toList
      ∧ (PropList.cons "b" (.mk "integer" "" .none .none [] false)
          (.cons "a" (.mk "string" "" .none .none [] false) .nil)).keys.Nodup)
    ∧ (Document.mk "s" (.mk "object" "" .none
          (.some (.cons "b" (.mk "integer" "" .none .none [] false)
            (.cons "a" (.mk "string" "" .none .none [] false) .nil))) ["b"] false)).Marshal
        = (Document.mk "s" (.mk "object" "" .none
            (.some (.cons "a" (.mk "string" "" .none .none [] false)
              (.cons "b" (.mk "integer" "" .none .none [] false) .nil))) ["b"] false)).Marshal :=
  ⟨⟨List.Perm.swap _ _ _, by decide⟩,
    C9_marshal_deterministic "s" "object" "" .none _ _ ["b"] false
      (List.Perm.swap _ _ _) (by decide)⟩

/-- C10 (amended): `mapKeyToString` on a non-string, non-interface key is
the placeholder `"<T Value>"` built from the key's type — independent of
the key's value — so a non-empty map whose keys are all plain values of
one type `keyT` collapses to the single property name
`"<keyT Value>"`; the properties map then has exactly that one key. -/
theorem C10_plain_keys_collapse (keyT valT : GoType) (k0 v0 : GoValue)
    (rest : GoEntryList)
    (hall : (GoEntryList.cons k0 v0 rest).allKeysOfType keyT = true) :
    (Property.empty.readDeep (.mapV keyT valT (.cons k0 v0 rest))
        ("" : String)).propertiesList.keys
      = ["<" ++ keyT.typeString ++ " Value>"] := by
  have hnamed := allKeysOfType_named keyT _ hall
  rw [GoEntryList.allKeysNamed, Bool.and_eq_true] at hnamed
  rw [readDeep_map_eq, Property.readFromMapDeep]
  have hkeys : (deepEntries (GoEntryList.cons k0 v0 rest) .nil).keys
      = ["<" ++ keyT.typeString ++ " Value>"] := by
    rw [deepEntries, insertProp, beq_iff_eq.1 hnamed.1]
    exact deepEntries_keys_const _ rest hnamed.2 _ (by rw [PropList.keys, PropList.keys])
  have hlen : (deepEntries (GoEntryList.cons k0 v0 rest) .nil).length > 0 := by
    rw [← PropList.keys_length, hkeys]
    simp
  rw [if_pos hlen]
  rw [propertiesList_eq_listOf]
  simpa using hkeys

/-- C10 witness: a map with two distinct int keys yields the single
property `"<int Value>"`. -/
theorem C10_witness :
    (GoEntryList.cons (.primV goInt) (.primV goInt)
        (.cons (.primV goInt) (.primV goInt) .nil)).allKeysOfType goInt = true
    ∧ (Property.empty.readDeep (.mapV goInt goInt
          (.cons (.primV goInt) (.primV goInt)
            (.cons (.primV goInt) (.primV goInt) .nil))) ("" : String)).propertiesList.keys
        = ["<" ++ goInt.typeString ++ " Value>"] :=
  ⟨by decide,
    C10_plain_keys_collapse goInt goInt (.primV goInt) (.primV goInt)
      (.cons (.primV goInt) (.primV goInt) .nil) (by decide)⟩

/-- C10 counterexample: a non-empty map whose keys are interface values
wrapping an `int` and a `float64` (neither a string nor an interface
wrapping a string) does not collapse to a single property: the key-to-name
conversion depends on each key's unwrapped dynamic type, and the
properties map gets two entries. -/
theorem C10_counterexample :
    (Property.empty.readDeep (.mapV .ifaceT goInt
        (.cons (.ifaceV (.some (.primV goInt))) (.primV goInt)
          (.cons (.ifaceV (.some (.primV goFloat64))) (.primV goInt) .nil)))
        ("" : String)).propertiesList.keys
      = ["<int Value>", "<float64 Value>"]
    ∧ (Property.empty.readDeep (.mapV .ifaceT goInt
        (.cons (.ifaceV (.some (.primV goInt))) (.primV goInt)
          (.cons (.ifaceV (.some (.primV goFloat64))) (.primV goInt) .nil)))
        ("" : String)).propertiesList.length ≠ 1 := by
  decide
